import Mathlib

/-!
# Verification of the math-tutor concept-classification core

Shallow embedding of `src/backend/app.py` (concept table, network building)
and `src/backend/hidden_markov_model.py` (HMM parameter derivation,
observation extraction, Viterbi decoding, posterior scoring).

Modelling conventions:
* Python floats are modelled as exact rationals (`Rat`); every numeric
  literal of the source (0.7, 0.9, 1e-10, ...) is exact in both worlds.
* Python `dict`s keyed by concept-id strings are modelled either as
  insertion-ordered association lists (where iteration order matters) or as
  total functions `String → Rat` (where only lookup matters); lookups that
  would raise `KeyError` in Python are given a fixed default value, and no
  claim exercises such a lookup.
* `list(set(...))` (the observation vocabulary) is modelled as
  first-occurrence deduplication.  Python's set iteration order is
  unspecified (hash-based); none of the verified properties depend on the
  particular order, only on membership and length.
-/

namespace AiTutor

/-- A concept record, mirroring the `Concept` dataclass of `app.py`. -/
structure Concept where
  name : String
  keywords : List String
  prerequisites : List String
  difficulty : Rat
  probability : Rat
  templateParams : List (String × List Rat)
deriving Repr, DecidableEq

/-- The knowledge base holds the insertion-ordered concept table
(`MathKnowledgeBase.concepts`, a Python dict keyed by `Concept.name`). -/
structure KB where
  concepts : List Concept
deriving Repr, DecidableEq

/-- Lookup default for a missing concept id (a Python dict access would
raise `KeyError`; the claims only look up ids present in the table). -/
def defaultConcept : Concept :=
  { name := "", keywords := [], prerequisites := [], difficulty := 0,
    probability := 0, templateParams := [] }

/-- `kb.concepts[name]`. -/
def conceptLookup (kb : KB) (name : String) : Concept :=
  ((kb.concepts.filter (fun c => c.name = name)).head?).getD defaultConcept

/-- `list(self.kb.concepts.keys())` — the ordered state list. -/
def kbStates (kb : KB) : List String :=
  kb.concepts.map (fun c => c.name)

/-- The observation vocabulary: `observations = set(); for concept: observations.update(concept.keywords); observations = list(observations)`.
Modelled as deduplication of the concatenated keyword lists (Python's set
iteration order is unspecified; only membership and length are used). -/
def vocabOf (kb : KB) : List String :=
  ((kb.concepts.map (fun c => c.keywords)).flatten).dedup

/-- The summand of `total_prob` in `_initialize_hmm`:
`concept.probability if concept.probability > 0 else (1 - concept.difficulty)`. -/
def priorOfConcept (c : Concept) : Rat :=
  if c.probability > 0 then c.probability else 1 - c.difficulty

/-- `total_prob` in `_initialize_hmm`. -/
def totalPrior (kb : KB) : Rat :=
  (kb.concepts.map priorOfConcept).sum

/-- `priorOfConcept` of a looked-up id. -/
def priorOf (kb : KB) (name : String) : Rat :=
  priorOfConcept (conceptLookup kb name)

/-- `start_probabilities[name]`:
`(concept.probability / total_prob) if concept.probability > 0 else ((1 - concept.difficulty) / total_prob)`. -/
def startProb (kb : KB) (name : String) : Rat :=
  let c := conceptLookup kb name
  if c.probability > 0 then c.probability / totalPrior kb
  else (1 - c.difficulty) / totalPrior kb

/-- Adjacency record held in `self.network[name]`. -/
structure NodeAdj where
  children : List String
  parents : List String
deriving Repr, DecidableEq

/-- Association-list update with Python-dict semantics: replace in place if
the key exists, append otherwise. -/
def assocSet (l : List (String × NodeAdj)) (k : String) (v : NodeAdj) :
    List (String × NodeAdj) :=
  match l with
  | [] => [(k, v)]
  | (k', v') :: rest =>
      if k' = k then (k, v) :: rest else (k', v') :: assocSet rest k v

/-- Association-list lookup (`self.network[name]`), with a default for ids a
Python access would fault on. -/
def assocGet (l : List (String × NodeAdj)) (k : String) : NodeAdj :=
  match l with
  | [] => { children := [], parents := [] }
  | (k', v') :: rest => if k' = k then v' else assocGet rest k

/-- Membership test (`prereq in self.network`). -/
def assocHas (l : List (String × NodeAdj)) (k : String) : Bool :=
  match l with
  | [] => false
  | (k', _) :: rest => k' = k || assocHas rest k

/-- Inner loop of `_build_network`: register one concept's prerequisites. -/
def registerPrereqs (net : List (String × NodeAdj)) (child : String)
    (prereqs : List String) : List (String × NodeAdj) :=
  prereqs.foldl
    (fun net prereq =>
      if assocHas net prereq then
        let adj := assocGet net prereq
        assocSet net prereq { adj with children := adj.children ++ [child] }
      else
        assocSet net prereq { children := [child], parents := [] })
    net

/-- `MathKnowledgeBase._build_network`: for each concept (in insertion
order) set `network[name] = {'children': [], 'parents': prerequisites}` and
then push the reverse edges. -/
def buildNetwork (concepts : List Concept) : List (String × NodeAdj) :=
  concepts.foldl
    (fun net c =>
      let net := assocSet net c.name { children := [], parents := c.prerequisites }
      registerPrereqs net c.name c.prerequisites)
    []

/-- `self.kb.network[state]`. -/
def networkOf (kb : KB) (state : String) : NodeAdj :=
  assocGet (buildNetwork kb.concepts) state

/-- `concept_prob` / `scaling_factor` in `_initialize_hmm`:
`probability if probability > 0 else 1.0`. -/
def effProbOf (kb : KB) (name : String) : Rat :=
  let c := conceptLookup kb name
  if c.probability > 0 then c.probability else 1

/-- `connected_states = set(children).union(set(parents))`, as a
deduplicated list (membership and length are what the source uses). -/
def connectedOf (kb : KB) (state : String) : List String :=
  let adj := networkOf kb state
  (adj.children ++ adj.parents).dedup

/-- One entry of the transition table, `transition_matrix[from][to]`:
self-loop `0.7 * concept_prob`; connected `(0.9 / max(len(connected), 1)) * 0.3 * concept_prob`;
otherwise `(0.1 / (len(states) - 1)) * 0.3 * concept_prob` (the subtraction
is Python `int` arithmetic, hence the `Int` cast). -/
def transitionEntry (kb : KB) (fromState toState : String) : Rat :=
  let connected := connectedOf kb fromState
  let basePr : Rat := 0.1 / ((((kbStates kb).length : Int) - 1 : Int) : Rat)
  let connectedPr : Rat := 0.9 / (max connected.length 1 : Nat)
  let conceptPr := effProbOf kb toState
  if toState = fromState then 0.7 * conceptPr
  else if toState ∈ connected then connectedPr * 0.3 * conceptPr
  else basePr * 0.3 * conceptPr

/-- One entry of the emission table, `emission_matrix[state][obs]` (only
queried for `obs` in the vocabulary): keyword `(0.8 / len(keywords)) * scaling`;
otherwise `(0.2 / (len(observations) - len(keywords))) * scaling`
(again a Python `int` subtraction). -/
def emissionEntry (kb : KB) (state obs : String) : Rat :=
  let c := conceptLookup kb state
  let scaling := effProbOf kb state
  if obs ∈ c.keywords then (0.8 / (c.keywords.length : Rat)) * scaling
  else (0.2 / (((((vocabOf kb).length : Int) - (c.keywords.length : Int)) : Int) : Rat)) * scaling

/-- The `HMMParams` dataclass.  The three probability tables are modelled as
total functions; their key sets in the source are exactly
`states` / `states × states` / `states × observations`. -/
structure HMMParams where
  states : List String
  observations : List String
  start : String → Rat
  trans : String → String → Rat
  emisEntry : String → String → Rat

/-- `MathConceptHMM._initialize_hmm` (pure content; the `print` is I/O). -/
def initHMM (kb : KB) : HMMParams :=
  { states := kbStates kb
    observations := vocabOf kb
    start := startProb kb
    trans := transitionEntry kb
    emisEntry := emissionEntry kb }

/-- `self.hmm_params.emission_matrix[state].get(obs, 1e-10)`: the dict holds
exactly the vocabulary keys, anything else resolves to the floor. -/
def emisLookup (p : HMMParams) (state obs : String) : Rat :=
  if obs ∈ p.observations then p.emisEntry state obs else 1e-10

/-- The hand-authored concept table of `MathKnowledgeBase._initialize_concepts`. -/
def actualKb : KB :=
  { concepts :=
    [ { name := "basic_arithmetic"
        keywords := ["add", "subtract", "multiply", "divide", "sum",
          "difference", "product", "quotient", "calculate", "compute",
          "evaluate", "operation", "+", "-", "*", "/"]
        prerequisites := []
        difficulty := 0.2
        probability := 0.4
        templateParams := [("a", [1, 100]), ("b", [1, 100])] }
    , { name := "linear_equations"
        keywords := ["linear", "x", "variable", "constant", "unknown",
          "expression", "linear equation"]
        prerequisites := ["basic_arithmetic"]
        difficulty := 0.4
        probability := 0.3
        templateParams := [("a", [-10, 10]), ("b", [-20, 20]), ("c", [-50, 50])] }
    , { name := "quadratic_equations"
        keywords := ["quadratic", "second degree", "square", "squared",
          "roots", "^2", "polynomial", "x^2"]
        prerequisites := ["linear_equations"]
        difficulty := 0.6
        probability := 0.4
        templateParams := [("a", [-5, 5]), ("b", [-10, 10]), ("c", [-15, 15])] }
    , { name := "geometry_basics"
        keywords := ["angle", "triangle", "circle", "rectangle", "perimeter",
          "area", "circumference", "radius", "height", "width", "length",
          "square", "measure", "compute"]
        prerequisites := ["basic_arithmetic"]
        difficulty := 0.4
        probability := 0.4
        templateParams := [("side", [1, 20]), ("radius", [1, 15]),
          ("height", [1, 20]), ("width", [1, 20])] }
    , { name := "trigonometry"
        keywords := ["sin", "cos", "tan", "angle", "triangle", "hypotenuse",
          "opposite", "adjacent", "sine", "cosine", "tangent", "cotangent",
          "cosecant", "secant", "cot", "csc", "sec", "right triangle",
          "calculate", "evaluate"]
        prerequisites := ["geometry_basics"]
        difficulty := 0.7
        probability := 0.875
        templateParams := [("angle", [0, 360]), ("side", [1, 20])] }
    , { name := "derivatives"
        keywords := ["derivative", "derivate", "rate of change",
          "differentiate", "slope", "tangent line", "function", "d/dx", "dx",
          "dy/dx", "calculus", "instantaneous rate", "evaluate"]
        prerequisites := ["quadratic_equations", "trigonometry"]
        difficulty := 0.8
        probability := 0.9
        templateParams := [("a", [-5, 5]), ("b", [-10, 10]), ("n", [2, 4])] }
    , { name := "integrals"
        keywords := ["integral", "antiderivative", "integrate",
          "area under curve", "definite integral", "indefinite integral",
          "integration", "evaluate", "calculus", "dx", "∫", "limits"]
        prerequisites := ["derivatives"]
        difficulty := 0.9
        probability := 0.9
        templateParams := [("a", [-5, 5]), ("b", [-10, 10]), ("n", [2, 4])] }
    ] }

/-! ## Observation extraction (`_compile_observation_patterns` / `_extract_observations`)

The compiled regexes are embedded as decidable predicates on the character
list of the text.  `\w` (Python `re` word character) is modelled for the
ASCII range as alphanumeric-or-underscore; every concrete text evaluated in
this development is ASCII. -/

/-- ASCII model of the regex word character class `\w`. -/
def isWordChar (c : Char) : Bool :=
  c.isAlphanum || c = '_'

/-- ASCII lowering, modelling `str.lower` (and `re.IGNORECASE`) on the
ASCII inputs used here. -/
def lowerChar (c : Char) : Char :=
  if 65 ≤ c.toNat ∧ c.toNat ≤ 90 then Char.ofNat (c.toNat + 32) else c

/-- `question.lower()`. -/
def strLower (s : String) : String :=
  ⟨s.data.map lowerChar⟩

/-- Wordness of the character at index `i` (`false` beyond either end). -/
def wordAt (t : List Char) (i : Nat) : Bool :=
  isWordChar (t.getD i ' ') && i < t.length

/-- `\b` at offset `i`: the wordness of the characters on the two sides of
the position differs (virtual non-word characters beyond the ends). -/
def boundaryAt (t : List Char) (i : Nat) : Bool :=
  (if i = 0 then false else wordAt t (i - 1)) != wordAt t i

/-- Occurrence of the literal `pat` at offset `i` of `t`. -/
def litAt (pat t : List Char) (i : Nat) : Bool :=
  i + pat.length ≤ t.length &&
    (List.range pat.length).all (fun j => t.getD (i + j) ' ' == pat.getD j ' ')

/-- Search for `\b` ++ escaped literal ++ `\b` (the per-keyword pattern
shape of `_compile_observation_patterns`). -/
def boundedLitSearch (pat t : List Char) : Bool :=
  (List.range (t.length + 1)).any
    (fun i => litAt pat t i && boundaryAt t i && boundaryAt t (i + pat.length))

/-- One keyword pattern: `re.compile(r'\b' + re.escape(obs) + r'\b', re.IGNORECASE)`
applied with `.search`.  `IGNORECASE` is modelled by lowering both sides. -/
def keywordMatch (obs text : String) : Bool :=
  boundedLitSearch (obs.data.map lowerChar) (text.data.map lowerChar)

/-- `'equation': r'[^><=]=(?!=)'` — a character other than `>`, `<`, `=`
followed by `=` not itself followed by `=`. -/
def equationMatch (text : String) : Bool :=
  let t := text.data
  (List.range t.length).any (fun i =>
    i + 2 ≤ t.length &&
    !(t.getD i ' ' == '>') && !(t.getD i ' ' == '<') && !(t.getD i ' ' == '=') &&
    t.getD (i + 1) ' ' == '=' &&
    (i + 2 == t.length || !(t.getD (i + 2) ' ' == '=')))

/-- `'inequality': r'[<>]=?|!='` — searching succeeds iff the text contains
`<`, `>`, or the two-character sequence `!=`. -/
def inequalityMatch (text : String) : Bool :=
  let t := text.data
  (List.range t.length).any (fun i =>
    t.getD i ' ' == '<' || t.getD i ' ' == '>' ||
    (t.getD i ' ' == '!' && t.getD (i + 1) ' ' == '='))

/-- `'squared': r'\b\w+\^2\b|²'` — either the superscript-two character, or
a word character directly followed by `^2` with a word boundary after the
`2` (the `\b` before `\w+` is then satisfiable at the start of the word
run). -/
def squaredMatch (text : String) : Bool :=
  let t := text.data
  t.any (fun c => c == '²') ||
  (List.range t.length).any (fun i =>
    i + 3 ≤ t.length &&
    isWordChar (t.getD i ' ') &&
    t.getD (i + 1) ' ' == '^' && t.getD (i + 2) ' ' == '2' &&
    (i + 3 == t.length || !isWordChar (t.getD (i + 3) ' ')))

/-- `'fraction': r'/|\bover\b|\bdivided by\b'`. -/
def fractionMatch (text : String) : Bool :=
  let t := text.data
  t.any (fun c => c == '/') ||
  boundedLitSearch "over".data t ||
  boundedLitSearch "divided by".data t

/-- `'function': r'\b[fg]\(.*?\)'` — an `f` or `g` with a word boundary
before it, then `(`, then any characters other than newline, then `)`. -/
def functionMatch (text : String) : Bool :=
  let t := text.data
  (List.range t.length).any (fun i =>
    (t.getD i ' ' == 'f' || t.getD i ' ' == 'g') &&
    boundaryAt t i &&
    t.getD (i + 1) ' ' == '(' &&
    (List.range t.length).any (fun j =>
      i + 2 ≤ j && j < t.length && t.getD j ' ' == ')' &&
      (List.range t.length).all (fun m =>
        !(i + 2 ≤ m && m < j) || !(t.getD m ' ' == '\n'))))

/-- `re.search(r'\b\d+\b', question)`: a run of digits with word boundaries
on both sides (digits are word characters, so the neighbours must be
non-word or absent). -/
def hasNumberToken (text : String) : Bool :=
  let t := text.data
  (List.range t.length).any (fun i =>
    (List.range t.length).any (fun j =>
      i ≤ j && j < t.length &&
      (List.range (j + 1)).all (fun m => !(i ≤ m) || (t.getD m ' ').isDigit) &&
      (i == 0 || !isWordChar (t.getD (i - 1) ' ')) &&
      (j + 1 == t.length || !isWordChar (t.getD (j + 1) ' '))))

/-- The fixed names (and dict order) of `self.special_patterns`. -/
def specialNames : List String :=
  ["equation", "inequality", "squared", "fraction", "function"]

/-- Dispatch of the five special patterns. -/
def specialMatch (name : String) (text : String) : Bool :=
  if name = "equation" then equationMatch text
  else if name = "inequality" then inequalityMatch text
  else if name = "squared" then squaredMatch text
  else if name = "fraction" then fractionMatch text
  else if name = "function" then functionMatch text
  else false

/-- `MathConceptHMM._extract_observations`: keyword hits in pattern-dict
order, then special-pattern hits, then the `operand` fallback when nothing
matched and the text contains a bare number. -/
def extractObservations (vocab : List String) (text : String) : List String :=
  let keywordHits := vocab.filter (fun obs => keywordMatch obs text)
  let specialHits := specialNames.filter (fun n => specialMatch n text)
  let hits := keywordHits ++ specialHits
  if hits.isEmpty then
    (if hasNumberToken text then ["operand"] else [])
  else hits

/-! ## Viterbi decoding (`MathConceptHMM.viterbi`)

The per-step dictionaries `V[t]` and `path` are modelled as functions from
state ids.  Python's `max` over `(value, state)` tuples compares
lexicographically — equal values are broken by the *string* comparison of
the state ids — and returns the first of several equal elements (impossible
here since state ids are distinct within one candidate list). -/

/-- Python tuple-`<` on `(float, str)` pairs: compare the values, then the
state ids (code-point lexicographic, as in Python). -/
def pyPairLt (a b : Rat × String) : Bool :=
  if a.1 < b.1 then true
  else if a.1 = b.1 then decide (a.2 < b.2)
  else false

/-- Python `max` over a non-empty sequence: keep the current element unless
a later one is strictly greater. -/
def pyMax (x : Rat × String) (xs : List (Rat × String)) : Rat × String :=
  xs.foldl (fun best y => if pyPairLt best y then y else best) x

/-- The candidate list of the inner `max(...)` of the Viterbi loop body:
`(V[t-1][prev] * transition_matrix[prev][curr] * emission_matrix[curr].get(obs, 1e-10), prev)`
for `prev` running over the states in order. -/
def viterbiCands (p : HMMParams) (vPrev : String → Rat) (curr obs : String) :
    List (Rat × String) :=
  p.states.map (fun prev => (vPrev prev * p.trans prev curr * emisLookup p curr obs, prev))

/-- `max_prob, best_state = max(...)` for one `(t, curr)` cell. -/
def bestPrev (p : HMMParams) (vPrev : String → Rat) (curr obs : String) :
    Rat × String :=
  match viterbiCands p vPrev curr obs with
  | [] => (0, "")
  | x :: xs => pyMax x xs

/-- One iteration of `for t in range(1, len(observations))`: build the new
`V` column and the new path dictionary. -/
def viterbiStep (p : HMMParams) (acc : (String → Rat) × (String → List String))
    (obs : String) : (String → Rat) × (String → List String) :=
  (fun curr => (bestPrev p acc.1 curr obs).1,
   fun curr => acc.2 (bestPrev p acc.1 curr obs).2 ++ [curr])

/-- The initial Viterbi column:
`V[0][state] = start_probabilities[state] * emission_matrix[state].get(observations[0], 1e-10)`. -/
def viterbiInitCol (p : HMMParams) (o0 : String) : String → Rat :=
  fun s => p.start s * emisLookup p s o0

/-- `MathConceptHMM.viterbi`.  The source indexes `observations[0]`, so it
is only ever called on a non-empty list; the `[]` case is a junk value. -/
def viterbi (p : HMMParams) (observations : List String) : Rat × List String :=
  match observations with
  | [] => (0, [])
  | o0 :: rest =>
      let init : (String → Rat) × (String → List String) :=
        (viterbiInitCol p o0, fun s => [s])
      let fin := rest.foldl (viterbiStep p) init
      match p.states.map (fun s => (fin.1 s, s)) with
      | [] => (0, [])
      | x :: xs =>
          let best := pyMax x xs
          (best.1, fin.2 best.2)

/-! ## Posterior scoring and `analyze_question` -/

/-- One entry of the `related_concepts` result list. -/
structure RelatedConcept where
  concept : String
  probability : Rat
  difficulty : Rat
deriving Repr, DecidableEq

/-- The success payload of `analyze_question`. -/
structure AnalysisRecord where
  mainConcept : String
  confidence : Rat
  prerequisites : List String
  relatedConcepts : List RelatedConcept
  observations : List String
deriving Repr, DecidableEq

/-- `analyze_question` returns either the `{'error': ..., 'concepts': []}`
dictionary or the success dictionary. -/
inductive AnalyzeResult where
  | err (msg : String)
  | ok (r : AnalysisRecord)
deriving Repr, DecidableEq

/-- `emission_score = np.mean([emission_matrix[concept].get(obs, 1e-10) for obs in observations])`. -/
def emissionScoreOf (p : HMMParams) (observations : List String) (concept : String) : Rat :=
  ((observations.map (emisLookup p concept)).sum) / (observations.length : Rat)

/-- `transition_score`: `transition_matrix[prev][concept]` with
`prev = state_sequence[-2]` when the decoded path has length `> 1`, else
`start_probabilities[concept]`.  (The `getD` default is unreachable: the
index is in range whenever the length guard holds.) -/
def contextScoreOf (p : HMMParams) (pathSeq : List String) (concept : String) : Rat :=
  if pathSeq.length > 1 then p.trans (pathSeq.getD (pathSeq.length - 2) "") concept
  else p.start concept

/-- `score = emission_score * transition_score`. -/
def rawScoreOf (p : HMMParams) (observations pathSeq : List String) (concept : String) : Rat :=
  emissionScoreOf p observations concept * contextScoreOf p pathSeq concept

/-- `total_score`, accumulated over the states in order. -/
def totalScoreOf (p : HMMParams) (observations pathSeq : List String) : Rat :=
  (p.states.map (rawScoreOf p observations pathSeq)).sum

/-- Stable descending insertion, modelling one placement of Python's stable
`list.sort(key=lambda x: x['probability'], reverse=True)`: an element moves
before another only when its probability is strictly greater, so elements
with equal probabilities keep their original relative order. -/
def insertDesc (x : RelatedConcept) : List RelatedConcept → List RelatedConcept
  | [] => [x]
  | y :: ys => if y.probability ≤ x.probability then x :: y :: ys
               else y :: insertDesc x ys

/-- Stable descending sort by probability. -/
def sortByProbDesc : List RelatedConcept → List RelatedConcept
  | [] => []
  | x :: xs => insertDesc x (sortByProbDesc xs)

/-- The `related_concepts` list right before sorting: one entry per state
in order, each probability already divided by `total_score` (the source
accumulates the raw scores into `total_score` in the first loop and divides
in the second; the result is identical). -/
def relatedEntries (kb : KB) (p : HMMParams) (observations pathSeq : List String) :
    List RelatedConcept :=
  let total := totalScoreOf p observations pathSeq
  p.states.map (fun c =>
    { concept := c
      probability := rawScoreOf p observations pathSeq c / total
      difficulty := (conceptLookup kb c).difficulty })

/-- `MathConceptHMM.analyze_question`. -/
def analyzeQuestion (kb : KB) (question : String) : AnalyzeResult :=
  let p := initHMM kb
  let observations := extractObservations p.observations (strLower question)
  if observations = [] then
    .err "No relevant patterns found in question"
  else if observations = ["operand"] then
    .ok { mainConcept := "basic_arithmetic"
          confidence := 1
          prerequisites := []
          relatedConcepts := [{ concept := "basic_arithmetic", probability := 1, difficulty := 0.2 }]
          observations := observations }
  else
    let vr := viterbi p observations
    let finalConcept := vr.2.getLastD ""
    .ok { mainConcept := finalConcept
          confidence := vr.1
          prerequisites := (conceptLookup kb finalConcept).prerequisites
          relatedConcepts := sortByProbDesc (relatedEntries kb p observations vr.2)
          observations := observations }

/-- The `related_concepts` field of an `analyze_question` result (empty for
the error result, which has no such field). -/
def relatedListOf (kb : KB) (question : String) : List RelatedConcept :=
  match analyzeQuestion kb question with
  | .err _ => []
  | .ok r => r.relatedConcepts

/-! ## Spec-side definitions for refinement comparison -/

/-- Spec wording (§3): `parents[id]` are the concept's prerequisites. -/
def specParents (kb : KB) (state : String) : List String :=
  (conceptLookup kb state).prerequisites

/-- Spec wording (§3): `children[id]` is the reverse of the prerequisite
relation over the concept table. -/
def specChildren (kb : KB) (state : String) : List String :=
  (kb.concepts.filter (fun c => state ∈ c.prerequisites)).map (fun c => c.name)

/-- Spec wording (§4.3): connected-set(A) = A's parents ∪ children. -/
def connectedSpecSet (kb : KB) (state : String) : List String :=
  (specParents kb state ++ specChildren kb state).dedup

/-! ## Division-checked parameter construction

Python raises `ZeroDivisionError` when a division's denominator is zero
(negative denominators are fine).  `initHMMChecked` mirrors exactly the
divisions `_initialize_hmm` executes, in program order:
* `start_probabilities` divides by `total_prob` once per concept — it can
  raise only when the table is non-empty and the prior sum is zero;
* `base_prob = 0.1 / (len(states) - 1)` runs once per `from_state` — it
  raises exactly when there is one state (`len(states) - 1 == 0`);
  `connected_prob` divides by `max(..., 1) ≥ 1` and never raises;
* the non-keyword emission `0.2 / (len(observations) - len(keywords))`
  runs only for a state that has some vocabulary symbol outside its
  keyword list, and raises exactly when that difference is zero;
  `0.8 / len(keywords)` runs only when some symbol is in the keyword list,
  so its denominator is positive. -/

def initHMMChecked (kb : KB) : Except Unit HMMParams :=
  if kb.concepts ≠ [] ∧ totalPrior kb = 0 then .error ()
  else if kb.concepts.length = 1 then .error ()
  else if ∃ c ∈ kb.concepts,
      (∃ o ∈ vocabOf kb, o ∉ c.keywords) ∧
      ((vocabOf kb).length : Int) - (c.keywords.length : Int) = 0 then .error ()
  else .ok (initHMM kb)

/-! ## Fixture tables and parameter sets used by individual claims -/

/-- A concept table whose prerequisite relation has a two-cycle. -/
def kbCyclic : KB :=
  { concepts :=
    [ { name := "alpha", keywords := ["k1"], prerequisites := ["beta"],
        difficulty := 0.5, probability := 0.5, templateParams := [] }
    , { name := "beta", keywords := ["k2"], prerequisites := ["alpha"],
        difficulty := 0.5, probability := 0.5, templateParams := [] } ] }

/-- A table with a single concept (transition base denominator is zero). -/
def kbSingle : KB :=
  { concepts :=
    [ { name := "only", keywords := ["k"], prerequisites := [],
        difficulty := 0.5, probability := 0.5, templateParams := [] } ] }

/-- A table in which `cover`'s keywords cover the whole vocabulary. -/
def kbCover : KB :=
  { concepts :=
    [ { name := "cover", keywords := ["a", "b"], prerequisites := [],
        difficulty := 0.5, probability := 0.5, templateParams := [] }
    , { name := "other", keywords := ["a"], prerequisites := [],
        difficulty := 0.5, probability := 0.5, templateParams := [] } ] }

/-- A table with duplicated keyword entries whose posterior raw-score sum
is exactly zero for the question `"a c"`: both concepts' mean emission over
the observations `["a", "c"]` vanishes (`0.8/4` against `0.2/(3-4)`). -/
def kbDegenerate : KB :=
  { concepts :=
    [ { name := "c1", keywords := ["a", "a", "a", "b"], prerequisites := [],
        difficulty := 0.5, probability := 0.5, templateParams := [] }
    , { name := "c2", keywords := ["c", "c", "c", "b"], prerequisites := [],
        difficulty := 0.5, probability := 0.5, templateParams := [] } ] }

/-- A two-state parameter set on which every Viterbi candidate ties: both
predecessors achieve the same value at every cell. -/
def tieParams : HMMParams :=
  { states := ["a", "b"]
    observations := ["o"]
    start := fun _ => 1/2
    trans := fun _ _ => 1
    emisEntry := fun _ _ => 1 }

/-- Propositional form of `pyPairLt`: strict lexicographic order on
`(value, state)` pairs, with Python's string comparison in second
position. -/
def PairLt (a b : Rat × String) : Prop :=
  a.1 < b.1 ∨ (a.1 = b.1 ∧ a.2 < b.2)

/-! # Theorems -/

/-! ## Generic lemmas about Python `max` over `(value, state)` tuples -/

theorem pyPairLt_eq_true_iff (a b : Rat × String) :
    pyPairLt a b = true ↔ PairLt a b := by
  unfold pyPairLt PairLt
  split_ifs with h1 h2
  · simp [h1]
  · simp [h1, h2]
  · simp [h1, h2]

theorem pairLt_irrefl (a : Rat × String) : ¬ PairLt a a := by
  unfold PairLt
  simp

theorem pairLt_trans {a b c : Rat × String} (h1 : PairLt a b) (h2 : PairLt b c) :
    PairLt a c := by
  rcases h1 with h1 | ⟨h1, h1'⟩ <;> rcases h2 with h2 | ⟨h2, h2'⟩
  · exact Or.inl (lt_trans h1 h2)
  · exact Or.inl (h2 ▸ h1)
  · exact Or.inl (h1 ▸ h2)
  · exact Or.inr ⟨h1.trans h2, lt_trans h1' h2'⟩

theorem pyMax_mem (x : Rat × String) (xs : List (Rat × String)) :
    pyMax x xs ∈ x :: xs := by
  induction xs generalizing x with
  | nil => simp [pyMax]
  | cons y ys ih =>
      have hstep : pyMax x (y :: ys) = pyMax (if pyPairLt x y then y else x) ys := by
        unfold pyMax
        rfl
      rw [hstep]
      have := ih (if pyPairLt x y then y else x)
      rcases List.mem_cons.mp this with h | h
      · rw [h]
        split_ifs <;> simp
      · simp [h]

theorem pairLt_trichotomy (a b : Rat × String) :
    PairLt a b ∨ a = b ∨ PairLt b a := by
  rcases lt_trichotomy a.1 b.1 with h | h | h
  · exact Or.inl (Or.inl h)
  · rcases lt_trichotomy a.2 b.2 with h2 | h2 | h2
    · exact Or.inl (Or.inr ⟨h, h2⟩)
    · exact Or.inr (Or.inl (Prod.ext h h2))
    · exact Or.inr (Or.inr (Or.inr ⟨h.symm, h2⟩))
  · exact Or.inr (Or.inr (Or.inl h))

theorem pyMax_not_lt (x : Rat × String) (xs : List (Rat × String)) :
    ∀ y ∈ x :: xs, ¬ PairLt (pyMax x xs) y := by
  induction xs generalizing x with
  | nil =>
      intro y hy
      simp only [List.mem_cons, List.not_mem_nil, or_false] at hy
      rw [hy]
      exact pairLt_irrefl _
  | cons z zs ih =>
      intro y hy
      have hstep : pyMax x (z :: zs) = pyMax (if pyPairLt x z then z else x) zs := by
        unfold pyMax
        rfl
      rw [hstep]
      by_cases hxz : pyPairLt x z = true
      · -- the running maximum moves to `z`
        simp only [hxz, if_true]
        rcases List.mem_cons.mp hy with hyx | hy'
        · -- `y = x` was dominated by `z`, which the final maximum is not below
          subst hyx
          have hmz : ¬ PairLt (pyMax z zs) z := ih z z (List.mem_cons_self z zs)
          have hyz : PairLt y z := (pyPairLt_eq_true_iff y z).mp hxz
          exact fun hcon => hmz (pairLt_trans hcon hyz)
        · exact ih z y hy'
      · -- the running maximum stays at `x`
        simp only [hxz, if_false]
        rcases List.mem_cons.mp hy with hyx | hy'
        · rw [hyx]
          exact ih x x (List.mem_cons_self x zs)
        · rcases List.mem_cons.mp hy' with hyz | hyzs
          · -- `y = z` lost against `x`, which the final maximum is not below
            subst hyz
            have hmx : ¬ PairLt (pyMax x zs) x := ih x x (List.mem_cons_self x zs)
            have hnzy : ¬ PairLt x y := fun hc => hxz ((pyPairLt_eq_true_iff x y).mpr hc)
            rcases pairLt_trichotomy x y with hc | hc | hc
            · exact absurd hc hnzy
            · rw [← hc]
              exact hmx
            · exact fun hcon => hmx (pairLt_trans hcon hc)
          · exact ih x y (List.mem_cons_of_mem x hyzs)

/-! ## Lemmas about the stable descending sort -/

theorem insertDesc_perm (x : RelatedConcept) (l : List RelatedConcept) :
    (insertDesc x l).Perm (x :: l) := by
  induction l with
  | nil => simp [insertDesc]
  | cons y ys ih =>
      unfold insertDesc
      split_ifs
      · exact List.Perm.refl _
      · exact (ih.cons y).trans (List.Perm.swap x y ys)

theorem sortByProbDesc_perm (l : List RelatedConcept) :
    (sortByProbDesc l).Perm l := by
  induction l with
  | nil => simp [sortByProbDesc]
  | cons x xs ih =>
      unfold sortByProbDesc
      exact (insertDesc_perm x (sortByProbDesc xs)).trans (ih.cons x)

theorem insertDesc_sorted (x : RelatedConcept) (l : List RelatedConcept)
    (hl : l.Sorted (fun a b => b.probability ≤ a.probability)) :
    (insertDesc x l).Sorted (fun a b => b.probability ≤ a.probability) := by
  induction l with
  | nil => simp [insertDesc]
  | cons y ys ih =>
      unfold insertDesc
      rcases List.sorted_cons.mp hl with ⟨hy, hys⟩
      split_ifs with hxy
      · -- `x` goes on top: it dominates `y` and hence everything below
        refine List.sorted_cons.mpr ⟨?_, hl⟩
        intro b hb
        rcases List.mem_cons.mp hb with rfl | hb'
        · exact hxy
        · exact (hy b hb').trans hxy
      · -- `y` stays on top and dominates `x` and the recursively sorted tail
        refine List.sorted_cons.mpr ⟨?_, ih hys⟩
        intro b hb
        have hb' : b ∈ x :: ys := (insertDesc_perm x ys).mem_iff.mp hb
        rcases List.mem_cons.mp hb' with rfl | hb''
        · exact le_of_lt (lt_of_not_le hxy)
        · exact hy b hb''

theorem sortByProbDesc_sorted (l : List RelatedConcept) :
    (sortByProbDesc l).Sorted (fun a b => b.probability ≤ a.probability) := by
  induction l with
  | nil => simp [sortByProbDesc]
  | cons x xs ih => exact insertDesc_sorted x (sortByProbDesc xs) ih

/-! ## Summation helpers -/

theorem sum_map_div {α : Type} (l : List α) (f : α → Rat) (t : Rat) :
    (l.map (fun a => f a / t)).sum = (l.map f).sum / t := by
  induction l with
  | nil => simp
  | cons a as ih => simp [ih, add_div]

/-! ## Positivity facts about the shipped parameter tables -/

theorem effProbOf_pos (kb : KB) (name : String) : 0 < effProbOf kb name := by
  simp only [effProbOf]
  split_ifs with h
  · exact h
  · exact one_pos

theorem transitionEntry_actual_pos (a b : String) :
    0 < transitionEntry actualKb a b := by
  simp only [transitionEntry]
  have hlen : (kbStates actualKb).length = 7 := rfl
  rw [hlen]
  split_ifs with h1 h2
  · exact mul_pos (by norm_num) (effProbOf_pos actualKb b)
  · refine mul_pos (mul_pos ?_ (by norm_num)) (effProbOf_pos actualKb b)
    refine div_pos (by norm_num) ?_
    have : 0 < max (connectedOf actualKb a).length 1 :=
      lt_of_lt_of_le one_pos (le_max_right _ 1)
    exact_mod_cast this
  · refine mul_pos (mul_pos ?_ (by norm_num)) (effProbOf_pos actualKb b)
    norm_num

theorem startProb_actual_pos : ∀ c ∈ kbStates actualKb, 0 < startProb actualKb c := by
  with_unfolding_all decide

theorem keywords_lt_vocab_actual :
    ∀ c ∈ kbStates actualKb,
      0 < (conceptLookup actualKb c).keywords.length ∧
      (conceptLookup actualKb c).keywords.length < (vocabOf actualKb).length := by
  decide

theorem emisLookup_actual_pos (c : String) (hc : c ∈ kbStates actualKb) (o : String) :
    0 < emisLookup (initHMM actualKb) c o := by
  unfold emisLookup
  have hobs : (initHMM actualKb).observations = vocabOf actualKb := rfl
  have hent : (initHMM actualKb).emisEntry = emissionEntry actualKb := rfl
  rw [hobs, hent]
  split_ifs with ho
  · simp only [emissionEntry]
    split_ifs with hk
    · refine mul_pos (div_pos (by norm_num) ?_) (effProbOf_pos actualKb c)
      exact_mod_cast List.length_pos_of_mem hk
    · refine mul_pos (div_pos (by norm_num) ?_) (effProbOf_pos actualKb c)
      have hlt := (keywords_lt_vocab_actual c hc).2
      have : ((conceptLookup actualKb c).keywords.length : Int) <
          ((vocabOf actualKb).length : Int) := by exact_mod_cast hlt
      have h0 : (0 : Int) <
          ((vocabOf actualKb).length : Int) - ((conceptLookup actualKb c).keywords.length : Int) := by
        omega
      exact_mod_cast h0
  · norm_num

theorem emissionScoreOf_actual_pos (observations : List String)
    (hobs : observations ≠ []) (c : String) (hc : c ∈ kbStates actualKb) :
    0 < emissionScoreOf (initHMM actualKb) observations c := by
  unfold emissionScoreOf
  refine div_pos (List.sum_pos _ ?_ ?_) ?_
  · intro x hx
    rcases List.mem_map.mp hx with ⟨o, _, rfl⟩
    exact emisLookup_actual_pos c hc o
  · simpa using hobs
  · exact_mod_cast List.length_pos.mpr hobs

theorem contextScoreOf_actual_pos (pathSeq : List String) (c : String)
    (hc : c ∈ kbStates actualKb) :
    0 < contextScoreOf (initHMM actualKb) pathSeq c := by
  unfold contextScoreOf
  have htr : (initHMM actualKb).trans = transitionEntry actualKb := rfl
  have hst : (initHMM actualKb).start = startProb actualKb := rfl
  rw [htr, hst]
  split_ifs
  · exact transitionEntry_actual_pos _ c
  · exact startProb_actual_pos c hc

theorem totalScoreOf_actual_pos (observations pathSeq : List String)
    (hobs : observations ≠ []) :
    0 < totalScoreOf (initHMM actualKb) observations pathSeq := by
  unfold totalScoreOf
  have hstates : (initHMM actualKb).states = kbStates actualKb := rfl
  rw [hstates]
  refine List.sum_pos _ ?_ ?_
  · intro x hx
    rcases List.mem_map.mp hx with ⟨c, hc, rfl⟩
    exact mul_pos (emissionScoreOf_actual_pos observations hobs c hc)
      (contextScoreOf_actual_pos pathSeq c hc)
  · simp only [ne_eq, List.map_eq_nil_iff]
    decide

/-! ## Claim theorems -/

/-- C2: the claim says a prerequisite cycle is detected at build time and
rejected with a fatal `ConfigError`.  The source has no cycle check at all:
on the two-cycle table `kbCyclic` (`alpha ↔ beta`), `_build_network`
completes normally and returns an ordinary adjacency map (even silently
dropping `beta`'s recorded child when `beta`'s own entry overwrites the
placeholder), and no error of any kind is raised. -/
theorem c2_cycle_code_bug :
    ("beta" ∈ (conceptLookup kbCyclic "alpha").prerequisites ∧
     "alpha" ∈ (conceptLookup kbCyclic "beta").prerequisites) ∧
    buildNetwork kbCyclic.concepts =
      [("alpha", { children := ["beta"], parents := ["beta"] }),
       ("beta", { children := [], parents := ["alpha"] })] := by
  decide

set_option maxRecDepth 1000000 in
/-- C5: on the shipped concept table, every transition entry matches the
claimed closed form exactly — `0.7 × effProb(A)` on the diagonal,
`(0.9 / |parents(A) ∪ children(A)|) × 0.3 × effProb(B)` on the connected
set (computed here from the concept table itself, independently of the
network-building code), and `(0.1 / (|states| − 1)) × 0.3 × effProb(B)`
elsewhere — and the rows are stored raw: the `basic_arithmetic` row does
not sum to 1. -/
theorem c5_transition_table :
    (∀ a ∈ kbStates actualKb, ∀ b ∈ kbStates actualKb,
      transitionEntry actualKb a b =
        (if b = a then 0.7 * effProbOf actualKb a
         else if b ∈ connectedSpecSet actualKb a then
           (0.9 / ((connectedSpecSet actualKb a).length : Rat)) * 0.3 * effProbOf actualKb b
         else
           (0.1 / (((kbStates actualKb).length : Rat) - 1)) * 0.3 * effProbOf actualKb b)) ∧
    ((kbStates actualKb).map (transitionEntry actualKb "basic_arithmetic")).sum ≠ 1 := by
  constructor
  · with_unfolding_all decide
  · with_unfolding_all decide

/-- Witness for C5 at the concrete pair `(basic_arithmetic, linear_equations)`. -/
theorem c5_transition_table_witness :
    transitionEntry actualKb "basic_arithmetic" "linear_equations" =
      (if "linear_equations" = "basic_arithmetic" then
         0.7 * effProbOf actualKb "basic_arithmetic"
       else if "linear_equations" ∈ connectedSpecSet actualKb "basic_arithmetic" then
         (0.9 / ((connectedSpecSet actualKb "basic_arithmetic").length : Rat)) * 0.3 *
           effProbOf actualKb "linear_equations"
       else
         (0.1 / (((kbStates actualKb).length : Rat) - 1)) * 0.3 *
           effProbOf actualKb "linear_equations") :=
  c5_transition_table.1 "basic_arithmetic" (by decide) "linear_equations" (by decide)

/-- C6: for any table, any concept `c`, any keyword `k` of `c` and any
vocabulary symbol `o` outside `c`'s keywords, if the keyword list is
duplicate-free (so its length is the keyword-set size) and strictly
shorter than the vocabulary, the emission ratio is exactly
`4 × (|vocabulary| − |keywords(c)|) / |keywords(c)|`: the `effProb`
scaling factor cancels. -/
theorem c6_emission_ratio (kb : KB) (c k o : String)
    (hk : k ∈ (conceptLookup kb c).keywords)
    (ho : o ∈ vocabOf kb)
    (hno : o ∉ (conceptLookup kb c).keywords)
    (hnd : (conceptLookup kb c).keywords.Nodup)
    (hlt : (conceptLookup kb c).keywords.length < (vocabOf kb).length) :
    emissionEntry kb c k / emissionEntry kb c o =
      4 * (((vocabOf kb).length : Rat) - ((conceptLookup kb c).keywords.length : Rat)) /
        ((conceptLookup kb c).keywords.length : Rat) := by
  have hK : (0 : Rat) < ((conceptLookup kb c).keywords.length : Rat) := by
    exact_mod_cast List.length_pos_of_mem hk
  have hVK : (0 : Rat) <
      ((vocabOf kb).length : Rat) - ((conceptLookup kb c).keywords.length : Rat) := by
    have : ((conceptLookup kb c).keywords.length : Rat) < ((vocabOf kb).length : Rat) := by
      exact_mod_cast hlt
    linarith
  have hS : (0 : Rat) < effProbOf kb c := effProbOf_pos kb c
  have hKne : ((conceptLookup kb c).keywords.length : Rat) ≠ 0 := ne_of_gt hK
  have hVKne : ((vocabOf kb).length : Rat) - ((conceptLookup kb c).keywords.length : Rat) ≠ 0 :=
    ne_of_gt hVK
  have hSne : effProbOf kb c ≠ 0 := ne_of_gt hS
  simp only [emissionEntry, if_pos hk, if_neg hno]
  push_cast
  field_simp
  ring

/-- C7: the start distribution divides each concept's prior — probability
if positive, else `1 − difficulty` — by the prior total, and on the
shipped table the seven start probabilities sum exactly to 1. -/
theorem c7_start_distribution :
    (∀ name : String,
      startProb actualKb name = priorOf actualKb name / totalPrior actualKb) ∧
    ((kbStates actualKb).map (startProb actualKb)).sum = 1 := by
  constructor
  · intro name
    simp only [startProb, priorOf, priorOfConcept]
    split_ifs <;> rfl
  · with_unfolding_all decide

set_option maxRecDepth 1000000 in
/-- C3 counterexample: extraction is claimed duplicate-free for every
input, but `squared` is both a vocabulary keyword (of
`quadratic_equations`) and a special-pattern name, and the keyword loop
and the special-pattern loop each append it: on `"squared b^2"` the symbol
`squared` occurs twice in the output. -/
theorem c3_duplicates_counterexample :
    (extractObservations (vocabOf actualKb) "squared b^2").count "squared" = 2 := by
  with_unfolding_all decide

/-- C3 amended: within the keyword hits and within the special-pattern hits
no symbol repeats, and `operand` is emitted alone; the only possible
duplication is a symbol occurring once as a keyword hit and once as a
special-pattern hit, so every symbol occurs at most twice and a symbol
occurring twice is necessarily both a vocabulary keyword and one of the
five special-pattern names. -/
theorem c3_duplicates_amended (text s : String) :
    (extractObservations (vocabOf actualKb) text).count s ≤ 2 ∧
    ((extractObservations (vocabOf actualKb) text).count s = 2 →
      s ∈ vocabOf actualKb ∧ s ∈ specialNames) := by
  have hvocab : (vocabOf actualKb).Nodup := List.nodup_dedup _
  have hspec : specialNames.Nodup := by decide
  have hkNd : ((vocabOf actualKb).filter (fun obs => keywordMatch obs text)).Nodup :=
    hvocab.filter _
  have hsNd : (specialNames.filter (fun n => specialMatch n text)).Nodup :=
    hspec.filter _
  have hk1 : ((vocabOf actualKb).filter (fun obs => keywordMatch obs text)).count s ≤ 1 :=
    List.nodup_iff_count_le_one.mp hkNd s
  have hs1 : (specialNames.filter (fun n => specialMatch n text)).count s ≤ 1 :=
    List.nodup_iff_count_le_one.mp hsNd s
  simp only [extractObservations]
  split_ifs with h1 h2
  · constructor
    · have : (["operand"] : List String).count s ≤ 1 := by
        by_cases hs : s = "operand" <;> simp [List.count_cons, hs]
      omega
    · intro h
      have : (["operand"] : List String).count s ≤ 1 := by
        by_cases hs : s = "operand" <;> simp [List.count_cons, hs]
      omega
  · simp
  · rw [List.count_append]
    refine ⟨by omega, fun h => ?_⟩
    have hks : ((vocabOf actualKb).filter (fun obs => keywordMatch obs text)).count s = 1 := by
      omega
    have hss : (specialNames.filter (fun n => specialMatch n text)).count s = 1 := by
      omega
    constructor
    · have : s ∈ (vocabOf actualKb).filter (fun obs => keywordMatch obs text) := by
        rw [← List.count_pos_iff, hks]
        norm_num
      exact (List.mem_filter.mp this).1
    · have : s ∈ specialNames.filter (fun n => specialMatch n text) := by
        rw [← List.count_pos_iff, hss]
        norm_num
      exact (List.mem_filter.mp this).1

/-- Witness for C3 amended at the duplicate-producing input. -/
theorem c3_duplicates_amended_witness :
    (extractObservations (vocabOf actualKb) "squared b^2").count "squared" ≤ 2 ∧
    ((extractObservations (vocabOf actualKb) "squared b^2").count "squared" = 2 →
      "squared" ∈ vocabOf actualKb ∧ "squared" ∈ specialNames) :=
  c3_duplicates_amended "squared b^2" "squared"

/-- C10 counterexample: the claim says a concept whose keywords cover the
whole vocabulary makes construction fail with a division error.  On
`kbCover` the concept `cover` covers the vocabulary, yet `_initialize_hmm`
completes and produces the tables: the `0.2 / (len(observations) -
len(keywords))` division is only executed for an observation outside the
state's keyword list, and for a covering concept no such observation
exists. -/
theorem c10_construction_counterexample :
    (∀ o ∈ vocabOf kbCover, o ∈ (conceptLookup kbCover "cover").keywords) ∧
    2 ≤ kbCover.concepts.length ∧
    initHMMChecked kbCover = .ok (initHMM kbCover) := by
  refine ⟨by decide, by decide, ?_⟩
  with_unfolding_all rfl

/-- C10 amended: construction does fail with a division error when the
table has exactly one concept (`0.1 / (len(states) - 1)` divides by zero);
but a keyword set covering the vocabulary causes no failure — construction
succeeds whenever the prior total is nonzero, there are at least two
concepts, and every concept either covers the vocabulary (so the
non-keyword branch never runs) or has keyword-list length different from
the vocabulary size. -/
theorem c10_construction_amended :
    (∀ kb : KB, kb.concepts.length = 1 → initHMMChecked kb = .error ()) ∧
    (∀ kb : KB, totalPrior kb ≠ 0 → kb.concepts.length ≠ 1 →
      (∀ c ∈ kb.concepts,
        (∀ o ∈ vocabOf kb, o ∈ c.keywords) ∨
        ((vocabOf kb).length : Int) - (c.keywords.length : Int) ≠ 0) →
      initHMMChecked kb = .ok (initHMM kb)) := by
  constructor
  · intro kb h
    simp only [initHMMChecked]
    by_cases h1 : kb.concepts ≠ [] ∧ totalPrior kb = 0
    · rw [if_pos h1]
    · rw [if_neg h1, if_pos h]
  · intro kb ht h1 hcov
    have ha : ¬(kb.concepts ≠ [] ∧ totalPrior kb = 0) := fun hx => ht hx.2
    have hc : ¬(∃ c ∈ kb.concepts, (∃ o ∈ vocabOf kb, o ∉ c.keywords) ∧
        ((vocabOf kb).length : Int) - (c.keywords.length : Int) = 0) := by
      rintro ⟨c, hcmem, ⟨o, homem, hknot⟩, hdiff⟩
      rcases hcov c hcmem with hall | hne
      · exact hknot (hall o homem)
      · exact hne hdiff
    simp only [initHMMChecked]
    rw [if_neg ha, if_neg h1, if_neg hc]

/-- Witness for C10 amended: the single-concept table is rejected with the
division error, and the covering table `kbCover` builds successfully. -/
theorem c10_construction_amended_witness :
    initHMMChecked kbSingle = .error () ∧
    initHMMChecked kbCover = .ok (initHMM kbCover) :=
  ⟨c10_construction_amended.1 kbSingle (by decide),
   c10_construction_amended.2 kbCover (by with_unfolding_all decide) (by decide)
     (by with_unfolding_all decide)⟩

/-- C1 counterexample: on the two-state parameter set `tieParams` every
predecessor candidate for the cell `(t = 1, curr = "b")` has the same
value `1/2`, the state iteration order is `["a", "b"]`, yet the retained
predecessor is `"b"`, not the earliest tying state `"a"`: Python's
`max((value, prev) ...)` breaks value ties towards the lexicographically
greatest state id.  Consequently the decoded path is `["b", "b"]`, where
the claimed earliest-state tie-break would retain `"a"`. -/
theorem c1_tiebreak_counterexample :
    tieParams.states = ["a", "b"] ∧
    viterbiInitCol tieParams "o" "a" * tieParams.trans "a" "b" *
        emisLookup tieParams "b" "o" =
      viterbiInitCol tieParams "o" "b" * tieParams.trans "b" "b" *
        emisLookup tieParams "b" "o" ∧
    (bestPrev tieParams (viterbiInitCol tieParams "o") "b" "o").2 = "b" ∧
    viterbi tieParams ["o", "o"] = (1/2, ["b", "b"]) := by
  with_unfolding_all decide

/-- C1 amended: for every parameter set, previous column and cell, the
retained predecessor is a state achieving the maximal candidate value
`score(t−1, prev) × Transition(prev, curr) × Emission(curr, obs)`, and
among the states achieving that maximum it is the one with the
*lexicographically greatest* id under Python string comparison — not the
earliest in the state-iteration order. -/
theorem c1_tiebreak_amended (p : HMMParams) (vPrev : String → Rat)
    (curr obs : String) (h : p.states ≠ []) :
    (bestPrev p vPrev curr obs).2 ∈ p.states ∧
    (bestPrev p vPrev curr obs).1 =
      vPrev (bestPrev p vPrev curr obs).2 *
        p.trans (bestPrev p vPrev curr obs).2 curr * emisLookup p curr obs ∧
    (∀ s ∈ p.states,
      vPrev s * p.trans s curr * emisLookup p curr obs ≤
        (bestPrev p vPrev curr obs).1) ∧
    (∀ s ∈ p.states,
      vPrev s * p.trans s curr * emisLookup p curr obs =
        (bestPrev p vPrev curr obs).1 →
      s ≤ (bestPrev p vPrev curr obs).2) := by
  rcases hstates : p.states with _ | ⟨a, as⟩
  · exact absurd hstates h
  · have hbp : bestPrev p vPrev curr obs =
        pyMax (vPrev a * p.trans a curr * emisLookup p curr obs, a)
          (as.map (fun prev => (vPrev prev * p.trans prev curr * emisLookup p curr obs, prev))) := by
      simp only [bestPrev, viterbiCands, hstates, List.map_cons]
    have hmem : bestPrev p vPrev curr obs ∈
        (a :: as).map (fun prev => (vPrev prev * p.trans prev curr * emisLookup p curr obs, prev)) := by
      rw [hbp, List.map_cons]
      exact pyMax_mem _ _
    rcases List.mem_map.mp hmem with ⟨prev, hprev, hfprev⟩
    have hsnd : (bestPrev p vPrev curr obs).2 = prev := by rw [← hfprev]
    have hfst : (bestPrev p vPrev curr obs).1 =
        vPrev prev * p.trans prev curr * emisLookup p curr obs := by rw [← hfprev]
    have hub : ∀ s ∈ p.states,
        ¬ PairLt (bestPrev p vPrev curr obs)
          (vPrev s * p.trans s curr * emisLookup p curr obs, s) := by
      intro s hs
      rw [hbp]
      refine pyMax_not_lt _ _ _ ?_
      have hmm : (vPrev s * p.trans s curr * emisLookup p curr obs, s) ∈
          (a :: as).map (fun prev => (vPrev prev * p.trans prev curr * emisLookup p curr obs, prev)) :=
        List.mem_map_of_mem _ (hstates ▸ hs)
      simpa [List.map_cons] using hmm
    refine ⟨?_, ?_, ?_, ?_⟩
    · rw [hsnd]
      exact hprev
    · rw [hfst, hsnd]
    · intro s hs
      have hns := hub s (by rw [hstates]; exact hs)
      unfold PairLt at hns
      push_neg at hns
      exact hns.1
    · intro s hs heq
      have hns := hub s (by rw [hstates]; exact hs)
      unfold PairLt at hns
      push_neg at hns
      rcases hns with ⟨hlt, hcase⟩
      exact hcase heq.symm

/-- Witness for C1 amended at the tying cell of `tieParams`. -/
theorem c1_tiebreak_amended_witness :
    (bestPrev tieParams (viterbiInitCol tieParams "o") "b" "o").2 ∈ tieParams.states ∧
    (bestPrev tieParams (viterbiInitCol tieParams "o") "b" "o").1 =
      viterbiInitCol tieParams "o"
          (bestPrev tieParams (viterbiInitCol tieParams "o") "b" "o").2 *
        tieParams.trans
          (bestPrev tieParams (viterbiInitCol tieParams "o") "b" "o").2 "b" *
        emisLookup tieParams "b" "o" ∧
    (∀ s ∈ tieParams.states,
      viterbiInitCol tieParams "o" s * tieParams.trans s "b" *
          emisLookup tieParams "b" "o" ≤
        (bestPrev tieParams (viterbiInitCol tieParams "o") "b" "o").1) ∧
    (∀ s ∈ tieParams.states,
      viterbiInitCol tieParams "o" s * tieParams.trans s "b" *
          emisLookup tieParams "b" "o" =
        (bestPrev tieParams (viterbiInitCol tieParams "o") "b" "o").1 →
      s ≤ (bestPrev tieParams (viterbiInitCol tieParams "o") "b" "o").2) :=
  c1_tiebreak_amended tieParams (viterbiInitCol tieParams "o") "b" "o" (by decide)

/-- C8: whenever extraction on the lowered question text yields exactly
`["operand"]`, `analyze_question` bypasses decoding and scoring and returns
the fixed response: main concept `basic_arithmetic`, confidence 1, no
prerequisites, and a single related-concept entry at probability 1. -/
theorem c8_operand_shortcut (q : String)
    (h : extractObservations (vocabOf actualKb) (strLower q) = ["operand"]) :
    analyzeQuestion actualKb q =
      .ok { mainConcept := "basic_arithmetic"
            confidence := 1
            prerequisites := []
            relatedConcepts :=
              [{ concept := "basic_arithmetic", probability := 1, difficulty := 0.2 }]
            observations := ["operand"] } := by
  have hobs : (initHMM actualKb).observations = vocabOf actualKb := rfl
  simp only [analyzeQuestion, hobs, h]
  norm_num

set_option maxRecDepth 1000000 in
/-- Witness for C8 at the digits-only question `"42 99"`. -/
theorem c8_operand_shortcut_witness :
    extractObservations (vocabOf actualKb) (strLower "42 99") = ["operand"] ∧
    analyzeQuestion actualKb "42 99" =
      .ok { mainConcept := "basic_arithmetic"
            confidence := 1
            prerequisites := []
            relatedConcepts :=
              [{ concept := "basic_arithmetic", probability := 1, difficulty := 0.2 }]
            observations := ["operand"] } :=
  ⟨by with_unfolding_all decide,
   c8_operand_shortcut "42 99" (by with_unfolding_all decide)⟩

/-- C4: the claim says a zero (or non-finite) posterior raw-score sum is
detected and surfaced as a structured `NormalizationError`.  The source has
no guard: on the table `kbDegenerate` and question `"a c"` the raw-score
sum is exactly zero for every decoded path, yet `analyze_question` performs
the division by that zero sum and returns an ordinary success record (in
Python the float division produces NaN/Inf probabilities; no error result
exists). -/
theorem c4_normalization_code_bug :
    extractObservations (vocabOf kbDegenerate) (strLower "a c") = ["a", "c"] ∧
    (∀ pathSeq : List String,
      totalScoreOf (initHMM kbDegenerate) ["a", "c"] pathSeq = 0) ∧
    ∃ r, analyzeQuestion kbDegenerate "a c" = AnalyzeResult.ok r := by
  refine ⟨by with_unfolding_all decide, ?_, ⟨_, rfl⟩⟩
  intro pathSeq
  have h1 : emissionScoreOf (initHMM kbDegenerate) ["a", "c"] "c1" = 0 := by
    with_unfolding_all decide
  have h2 : emissionScoreOf (initHMM kbDegenerate) ["a", "c"] "c2" = 0 := by
    with_unfolding_all decide
  have hstates : (initHMM kbDegenerate).states = ["c1", "c2"] := rfl
  simp only [totalScoreOf, hstates, List.map_cons, List.map_nil, List.sum_cons,
    List.sum_nil, rawScoreOf, h1, h2, zero_mul, add_zero]

/-- C9: for every question that reaches posterior scoring (non-empty
extraction, not the operand shortcut), the returned `related_concepts`
list has exactly one entry per concept of the (duplicate-free) state list,
its probabilities sum exactly to 1, and it is sorted descending by
probability. -/
theorem c9_related_concepts (q : String)
    (h1 : extractObservations (vocabOf actualKb) (strLower q) ≠ [])
    (h2 : extractObservations (vocabOf actualKb) (strLower q) ≠ ["operand"]) :
    (kbStates actualKb).Nodup ∧
    ((relatedListOf actualKb q).map RelatedConcept.concept).Perm (kbStates actualKb) ∧
    ((relatedListOf actualKb q).map RelatedConcept.probability).sum = 1 ∧
    (relatedListOf actualKb q).Sorted (fun x y => y.probability ≤ x.probability) := by
  have hobs : (initHMM actualKb).observations = vocabOf actualKb := rfl
  have hkey : relatedListOf actualKb q =
      sortByProbDesc (relatedEntries actualKb (initHMM actualKb)
        (extractObservations (vocabOf actualKb) (strLower q))
        (viterbi (initHMM actualKb)
          (extractObservations (vocabOf actualKb) (strLower q))).2) := by
    simp only [relatedListOf, analyzeQuestion, hobs]
    rw [if_neg h1, if_neg h2]
  rw [hkey]
  have hperm : (sortByProbDesc (relatedEntries actualKb (initHMM actualKb)
      (extractObservations (vocabOf actualKb) (strLower q))
      (viterbi (initHMM actualKb)
        (extractObservations (vocabOf actualKb) (strLower q))).2)).Perm
      (relatedEntries actualKb (initHMM actualKb)
        (extractObservations (vocabOf actualKb) (strLower q))
        (viterbi (initHMM actualKb)
          (extractObservations (vocabOf actualKb) (strLower q))).2) :=
    sortByProbDesc_perm _
  have hstates : (initHMM actualKb).states = kbStates actualKb := rfl
  have hmapc : (relatedEntries actualKb (initHMM actualKb)
      (extractObservations (vocabOf actualKb) (strLower q))
      (viterbi (initHMM actualKb)
        (extractObservations (vocabOf actualKb) (strLower q))).2).map
        RelatedConcept.concept = kbStates actualKb := by
    simp only [relatedEntries, List.map_map]
    rw [← hstates]
    exact List.map_id _
  have htot : 0 < totalScoreOf (initHMM actualKb)
      (extractObservations (vocabOf actualKb) (strLower q))
      (viterbi (initHMM actualKb)
        (extractObservations (vocabOf actualKb) (strLower q))).2 :=
    totalScoreOf_actual_pos _ _ h1
  refine ⟨by decide, ?_, ?_, ?_⟩
  · exact (hperm.map RelatedConcept.concept).trans (hmapc ▸ List.Perm.refl _)
  · rw [(hperm.map RelatedConcept.probability).sum_eq]
    simp only [relatedEntries, List.map_map]
    have hcomp : (RelatedConcept.probability ∘ fun c =>
        ({ concept := c
           probability := rawScoreOf (initHMM actualKb)
             (extractObservations (vocabOf actualKb) (strLower q))
             (viterbi (initHMM actualKb)
               (extractObservations (vocabOf actualKb) (strLower q))).2 c /
             totalScoreOf (initHMM actualKb)
               (extractObservations (vocabOf actualKb) (strLower q))
               (viterbi (initHMM actualKb)
                 (extractObservations (vocabOf actualKb) (strLower q))).2
           difficulty := (conceptLookup actualKb c).difficulty } : RelatedConcept)) =
        fun c => rawScoreOf (initHMM actualKb)
          (extractObservations (vocabOf actualKb) (strLower q))
          (viterbi (initHMM actualKb)
            (extractObservations (vocabOf actualKb) (strLower q))).2 c /
          totalScoreOf (initHMM actualKb)
            (extractObservations (vocabOf actualKb) (strLower q))
            (viterbi (initHMM actualKb)
              (extractObservations (vocabOf actualKb) (strLower q))).2 := rfl
    rw [hcomp, sum_map_div]
    have hts : ((initHMM actualKb).states.map (rawScoreOf (initHMM actualKb)
        (extractObservations (vocabOf actualKb) (strLower q))
        (viterbi (initHMM actualKb)
          (extractObservations (vocabOf actualKb) (strLower q))).2)).sum =
        totalScoreOf (initHMM actualKb)
          (extractObservations (vocabOf actualKb) (strLower q))
          (viterbi (initHMM actualKb)
            (extractObservations (vocabOf actualKb) (strLower q))).2 := rfl
    rw [hts]
    exact div_self (ne_of_gt htot)
  · exact sortByProbDesc_sorted _

set_option maxRecDepth 1000000 in
/-- Witness for C9 at the question `"sum"`. -/
theorem c9_related_concepts_witness :
    (kbStates actualKb).Nodup ∧
    ((relatedListOf actualKb "sum").map RelatedConcept.concept).Perm (kbStates actualKb) ∧
    ((relatedListOf actualKb "sum").map RelatedConcept.probability).sum = 1 ∧
    (relatedListOf actualKb "sum").Sorted (fun x y => y.probability ≤ x.probability) :=
  c9_related_concepts "sum" (by with_unfolding_all decide)
    (by with_unfolding_all decide)

set_option maxRecDepth 1000000 in
/-- Witness for C6 on the shipped table at concept `linear_equations`,
keyword `linear`, non-keyword `integral`. -/
theorem c6_emission_ratio_witness :
    emissionEntry actualKb "linear_equations" "linear" /
      emissionEntry actualKb "linear_equations" "integral" =
    4 * (((vocabOf actualKb).length : Rat) -
        ((conceptLookup actualKb "linear_equations").keywords.length : Rat)) /
      ((conceptLookup actualKb "linear_equations").keywords.length : Rat) :=
  c6_emission_ratio actualKb "linear_equations" "linear" "integral" (by decide)
    (by decide) (by decide) (by decide) (by decide)

/-- Witness for C7 instantiated at `basic_arithmetic`. -/
theorem c7_start_distribution_witness :
    startProb actualKb "basic_arithmetic" =
      priorOf actualKb "basic_arithmetic" / totalPrior actualKb ∧
    ((kbStates actualKb).map (startProb actualKb)).sum = 1 :=
  ⟨c7_start_distribution.1 "basic_arithmetic", c7_start_distribution.2⟩

/-- Witness for C4 instantiated at the decoded path `["c1", "c2"]`. -/
theorem c4_normalization_code_bug_witness :
    totalScoreOf (initHMM kbDegenerate) ["a", "c"] ["c1", "c2"] = 0 :=
  c4_normalization_code_bug.2.1 ["c1", "c2"]

end AiTutor
